import Mathlib

/-!
Shallow embedding of the `humilityai/matrix` Go package (dense float64
matrix, row iterator, sparse matrix) and proofs about its operations.

Conventions of the embedding:
* Go `float64` values are modelled by `ℚ`; every concrete input used in
  the theorems below consists of small integers, on which Go's float64
  addition and comparisons are exact, so the `ℚ` semantics agrees with
  the source on those inputs.
* A Go runtime panic (index out of range, slice bounds out of range,
  integer division by zero) and a non-terminating loop are both modelled
  by `none` of an outer `Option`.
* Methods that mutate their receiver return the new receiver state; a
  method that can also fail returns the pair of the new state and the
  `Option MatrixError` the Go method returns.
* Go `int` indices supplied by callers are modelled by `Int` (their sign
  matters for the bounds checks); lengths and the non-negative column
  count are modelled by `Nat`.
-/

namespace MatrixSpec

/-- Element type of the float64 matrix; see the module comment. -/
abbrev Val := ℚ

/-- Modelled from the spec: the three typed error values of §7
(`RowSizeError`, `RowIndexError`, `ColumnIndexError`); the Go file
declaring `ErrRowSize`, `ErrRowIndex` and `ErrColumnIndex` is not among
the provided sources. -/
inductive MatrixError where
  | rowSize
  | rowIndex
  | columnIndex
deriving DecidableEq, Repr

/-- `MatrixFloat64` from `matrixfloat64.go`: a flat row-major buffer
`data` plus a column count. -/
structure MatrixFloat64 where
  data : List Val
  columns : Nat
deriving DecidableEq, Repr

/-- Go indexing `l[i]` with an `int` index: panics unless `0 ≤ i < len l`. -/
def indexInt (l : List Val) (i : Int) : Option Val :=
  if h : 0 ≤ i ∧ i.toNat < l.length then some (l.get ⟨i.toNat, h.2⟩) else none

/-- Go indexing `l[i]` with a never-negative index. -/
def indexNat (l : List Val) (i : Nat) : Option Val := l[i]?

/-- Go element assignment `l[i] = v`: panics unless `i < len l`. -/
def writeNat (l : List Val) (i : Nat) (v : Val) : Option (List Val) :=
  if i < l.length then some (l.set i v) else none

/-- Go element assignment `l[i] = v` with an `int` index. -/
def writeInt (l : List Val) (i : Int) (v : Val) : Option (List Val) :=
  if 0 ≤ i ∧ i.toNat < l.length then some (l.set i.toNat v) else none

/-- Go slicing `l[lo:hi]`; the backing capacity is modelled as the
length, so `hi > len l` panics. -/
def sliceInt (l : List Val) (lo hi : Int) : Option (List Val) :=
  if 0 ≤ lo ∧ lo ≤ hi ∧ hi ≤ (l.length : Int) then
    some ((l.drop lo.toNat).take (hi - lo).toNat)
  else none

/-- `NewMatrixFloat64`: empty buffer, fixed column count. -/
def NewMatrixFloat64 (columns : Nat) : MatrixFloat64 :=
  { data := [], columns := columns }

/-- `AddRow`: rejects a row whose length differs from the column count,
otherwise appends it to the buffer. Returns the receiver state paired
with the returned error. -/
def AddRow (m : MatrixFloat64) (row : List Val) : MatrixFloat64 × Option MatrixError :=
  if row.length ≠ m.columns then (m, some .rowSize)
  else ({ m with data := m.data ++ row }, none)

/-- `Rows`: `len(m.data) / m.columns`; Go integer division panics when
`columns = 0`. -/
def Rows (m : MatrixFloat64) : Option Nat :=
  if m.columns = 0 then none
  else some (m.data.length / m.columns)

/-- `Columns` accessor. -/
def Columns (m : MatrixFloat64) : Nat := m.columns

/-- `Dimensions`: `(m.Rows(), m.columns)`. -/
def Dimensions (m : MatrixFloat64) : Option (Nat × Nat) :=
  match Rows m with
  | none => none
  | some r => some (r, m.columns)

/-- `checkRowAndColumnBounds`: recomputes `rows := len(m.data)/m.columns`
(a division that panics when `columns = 0`), rejects `row > rows`,
`row < 0`, `column < 0`, `column > m.columns`, and accepts everything
else — including the one-past-the-end indices `row = rows` and
`column = m.columns`. -/
def checkRowAndColumnBounds (m : MatrixFloat64) (row column : Int) :
    Option (Option MatrixError) :=
  if m.columns = 0 then none
  else
    let rows : Int := (m.data.length / m.columns : Nat)
    if row > rows ∨ row < 0 then some (some .rowIndex)
    else if column < 0 ∨ column > (m.columns : Int) then some (some .columnIndex)
    else some none

/-- `GetValue`: bounds check, then read `m.data[row*m.columns+column]`. -/
def GetValue (m : MatrixFloat64) (row column : Int) :
    Option (Except MatrixError Val) :=
  match checkRowAndColumnBounds m row column with
  | none => none
  | some (some e) => some (.error e)
  | some none =>
      match indexInt m.data (row * (m.columns : Int) + column) with
      | none => none
      | some v => some (.ok v)

/-- `GetRow`: bounds check with column 0, then the slice
`m.data[row*columns : row*columns+columns]`. -/
def GetRow (m : MatrixFloat64) (row : Int) :
    Option (Except MatrixError (List Val)) :=
  match checkRowAndColumnBounds m row 0 with
  | none => none
  | some (some e) => some (.error e)
  | some none =>
      let start : Int := row * (m.columns : Int)
      match sliceInt m.data start (start + (m.columns : Int)) with
      | none => none
      | some r => some (.ok r)

/-- `UpdateValue`: bounds check, then the in-place write
`m.data[row*m.columns+column] = value`. Returns the receiver state
paired with the returned error. -/
def UpdateValue (m : MatrixFloat64) (value : Val) (row column : Int) :
    Option (MatrixFloat64 × Option MatrixError) :=
  match checkRowAndColumnBounds m row column with
  | none => none
  | some (some e) => some (m, some e)
  | some none =>
      match writeInt m.data (row * (m.columns : Int) + column) value with
      | none => none
      | some data' => some ({ m with data := data' }, none)

/-- Body of the scan loop
`for i := 0; i+m.columns < len(m.data)-1; i += m.columns` of
`GetColumnData`, collecting `m.data[i+column]` at every visited start
index `i`. `fuel` bounds the iterations; its exhaustion (`none`) models
the loop failing to terminate (possible only when `columns = 0`, where
`i` never advances). -/
def getColumnLoop (data : List Val) (c col : Nat) : Nat → Nat → Option (List Val)
  | 0, _ => none
  | fuel + 1, i =>
    if i + c < data.length - 1 then
      match indexNat data (i + col) with
      | none => none
      | some v =>
          match getColumnLoop data c col fuel (i + c) with
          | none => none
          | some rest => some (v :: rest)
    else some []

/-- `GetColumnData`: rejects `column < 0` and `column ≥ m.columns`, then
runs the scan loop collecting the column's value at each visited row. -/
def GetColumnData (m : MatrixFloat64) (column : Int) :
    Option (Except MatrixError (List Val)) :=
  if column < 0 ∨ column ≥ (m.columns : Int) then some (.error .columnIndex)
  else
    match getColumnLoop m.data m.columns column.toNat (m.data.length + 1) 0 with
    | none => none
    | some l => some (.ok l)

/-- `math.SmallestNonzeroFloat64` as an exact rational. -/
def smallestNonzeroFloat64 : Val := 1 / 2 ^ 1074

/-- `math.MaxFloat64` as an exact rational. -/
def maxFloat64 : Val := (2 ^ 53 - 1) * 2 ^ 971

/-- The scan loop of `MaxSum`. `maxSum` is the threshold the Go code
initialises and then never reassigns inside the loop, so it is a fixed
parameter here; `max` is the running candidate (`nil`, i.e. `[]`,
initially). A visited row replaces the candidate whenever its sum
exceeds the fixed threshold. -/
def maxSumLoop (data : List Val) (c : Nat) (maxSum : Val) :
    Nat → Nat → List Val → Option (List Val)
  | 0, _, _ => none
  | fuel + 1, i, max =>
    if i + c < data.length - 1 then
      let s := (data.drop i).take c
      maxSumLoop data c maxSum fuel (i + c) (if s.sum > maxSum then s else max)
    else some max

/-- `MaxSum`: scan loop with the never-updated threshold
`math.SmallestNonzeroFloat64`. -/
def MaxSum (m : MatrixFloat64) : Option (List Val) :=
  maxSumLoop m.data m.columns smallestNonzeroFloat64 (m.data.length + 1) 0 []

/-- The scan loop of `MinSum`; `minSum` is likewise never reassigned by
the Go code. -/
def minSumLoop (data : List Val) (c : Nat) (minSum : Val) :
    Nat → Nat → List Val → Option (List Val)
  | 0, _, _ => none
  | fuel + 1, i, min =>
    if i + c < data.length - 1 then
      let s := (data.drop i).take c
      minSumLoop data c minSum fuel (i + c) (if s.sum < minSum then s else min)
    else some min

/-- `MinSum`: scan loop with the never-updated threshold
`math.MaxFloat64`. -/
def MinSum (m : MatrixFloat64) : Option (List Val) :=
  minSumLoop m.data m.columns maxFloat64 (m.data.length + 1) 0 []

/-- Result of `Sample`: either a freshly allocated matrix or the
receiver pointer itself (`m` returned unchanged, aliased). -/
inductive SampleResult where
  | fresh (m : MatrixFloat64)
  | original
deriving DecidableEq, Repr

/-- The scan loop of `Sample`: each visited row is added to the fresh
matrix when the next draw of `rand.Intn(100)` (modelled by the supplied
stream `draws`, reduced mod 100) is below `percentage`; the error of
`sample.AddRow(row)` is discarded, as in the source. An exhausted draw
stream is modelled as `none`. -/
def sampleLoop (data : List Val) (c : Nat) (percentage : Val) :
    Nat → Nat → List Nat → MatrixFloat64 → Option MatrixFloat64
  | 0, _, _, _ => none
  | fuel + 1, i, draws, sample =>
    if i + c < data.length - 1 then
      let row := (data.drop i).take c
      match draws with
      | [] => none
      | d :: rest =>
          let sample' := if ((d % 100 : Nat) : Val) < percentage then (AddRow sample row).1
                         else sample
          sampleLoop data c percentage fuel (i + c) rest sample'
    else some sample

/-- `Sample`: negative `amount` returns the fresh empty matrix;
`amount ≥ len(m.data)` (the element count) returns the receiver itself;
otherwise Bernoulli row sampling with threshold
`amount / len(m.data) * 100` into the fresh matrix. Also returns the
receiver's final state. -/
def Sample (m : MatrixFloat64) (amount : Int) (draws : List Nat) :
    Option (SampleResult × MatrixFloat64) :=
  let sample := NewMatrixFloat64 m.columns
  if amount < 0 then some (.fresh sample, m)
  else if amount ≥ (m.data.length : Int) then some (.original, m)
  else
    let percentage : Val := ((amount : Val) / (m.data.length : Val)) * 100
    match sampleLoop m.data m.columns percentage (m.data.length + 1) 0 draws sample with
    | none => none
    | some s => some (.fresh s, m)

/-- The row `Iterator`: a reference to the matrix and the cursor. -/
structure Iterator where
  M : MatrixFloat64
  row : Int
deriving DecidableEq, Repr

/-- The `Iterator()` method: cursor starts at `-1` (before the first
row). -/
def mkIterator (m : MatrixFloat64) : Iterator :=
  { M := m, row := -1 }

/-- `Next`: increments the cursor, then returns `false` iff the new
cursor exceeds `Rows()` (whose division panics when `columns = 0`). -/
def Next (it : Iterator) : Option (Bool × Iterator) :=
  let it' : Iterator := { it with row := it.row + 1 }
  match Rows it.M with
  | none => none
  | some rows =>
      if it'.row > (rows : Int) then some (false, it')
      else some (true, it')

/-- `RowIndices`: the cursor clamped at 0, then the `for j` loop
collecting the indices `[row*columns, row*columns+columns)`. -/
def RowIndices (it : Iterator) : List Nat :=
  let row : Nat := if it.row < 0 then 0 else it.row.toNat
  List.range' (row * it.M.columns) it.M.columns

/-- The iterator state after `k` successive `Next` calls on `it`
(`none` once any call panics). -/
def iterateNext (it : Iterator) : Nat → Option Iterator
  | 0 => some it
  | k + 1 =>
      match iterateNext it k with
      | none => none
      | some it' =>
          match Next it' with
          | none => none
          | some (_, it'') => some it''

/-- The boolean returned by the `k`-th `Next` call (`k ≥ 1`) on a fresh
iterator over `m`. -/
def nthNext (m : MatrixFloat64) (k : Nat) : Option Bool :=
  match iterateNext (mkIterator m) (k - 1) with
  | none => none
  | some it =>
      match Next it with
      | none => none
      | some (b, _) => some b

/-- The inner `for _, index := range indices` loop of `AppendColumn`:
`data[index] = m.data[index]`, panicking on any out-of-range read of
the old buffer or write to the new one. -/
def copyIndices (src : List Val) : List Nat → List Val → Option (List Val)
  | [], dst => some dst
  | i :: rest, dst =>
      match indexNat src i with
      | none => none
      | some v =>
          match writeNat dst i v with
          | none => none
          | some dst' => copyIndices src rest dst'

/-- The `for iter.Next()` loop of `AppendColumn`: copy the current
row's indices from the old buffer, then write `defaultValue` at
`indices[len(indices)-1] + 1` (indexing an empty `indices` panics). -/
def appendColumnLoop (m : MatrixFloat64) (defaultValue : Val) :
    Nat → Iterator → List Val → Option (List Val)
  | 0, _, _ => none
  | fuel + 1, it, data =>
      match Next it with
      | none => none
      | some (false, _) => some data
      | some (true, it') =>
          let indices := RowIndices it'
          match copyIndices m.data indices data with
          | none => none
          | some data' =>
              match indices.getLast? with
              | none => none
              | some lastIndex =>
                  match writeNat data' (lastIndex + 1) defaultValue with
                  | none => none
                  | some data'' => appendColumnLoop m defaultValue fuel it' data''

/-- `AppendColumn`: allocates a zeroed buffer of length `len + rows`,
drives a fresh iterator over the old matrix copying rows and inserting
the default, then installs the new buffer and increments the column
count. The fuel `rows + 2` covers every `Next` call the loop can make
(the cursor stops reporting success at `rows + 1`). -/
def AppendColumn (m : MatrixFloat64) (defaultValue : Val) : Option MatrixFloat64 :=
  match Rows m with
  | none => none
  | some rows =>
      let data0 : List Val := List.replicate (m.data.length + rows) 0
      match appendColumnLoop m defaultValue (rows + 2) (mkIterator m) data0 with
      | none => none
      | some data => some { data := data, columns := m.columns + 1 }

/-- `Sparse` from the sparse-matrix file: a column high-water mark `C`
and the mapping row index → (column index → value), modelled as the Go
nested map (`none` = key absent). -/
structure Sparse where
  C : Int
  Data : Int → Option (Int → Option Val)

/-- `NewSparse`: empty mapping, zero high-water mark. -/
def NewSparse : Sparse :=
  { C := 0, Data := fun _ => none }

/-- `Sparse.Get`: the double map lookup `s.Data[i][j]`; a missing row or
column reads as the zero value `0.0`. -/
def Sparse.Get (s : Sparse) (i j : Int) : Val :=
  match s.Data i with
  | none => 0
  | some row => (row j).getD 0

/-- `Sparse.Set`: lazily creates the row mapping, raises the high-water
mark when `j > s.C`, and stores `v` at column `j`. -/
def Sparse.Set (s : Sparse) (i j : Int) (v : Val) : Sparse :=
  let row : Int → Option Val := (s.Data i).getD (fun _ => none)
  { C := if j > s.C then j else s.C,
    Data := fun k =>
      if k = i then some (fun l => if l = j then some v else row l)
      else s.Data k }

/-- `Sparse.Increment`: same lazy creation as `Set`, then `row[j]++`
(adding 1 to the stored value, or to the implicit `0.0`). -/
def Sparse.Increment (s : Sparse) (i j : Int) : Sparse :=
  let row : Int → Option Val := (s.Data i).getD (fun _ => none)
  { C := if j > s.C then j else s.C,
    Data := fun k =>
      if k = i then some (fun l => if l = j then some ((row j).getD 0 + 1) else row l)
      else s.Data k }

/-- A call to one of the two sparse mutators. -/
inductive SparseOp where
  | set (i j : Int) (v : Val)
  | inc (i j : Int)

/-- Apply one mutator call. -/
def applyOp (s : Sparse) : SparseOp → Sparse
  | .set i j v => Sparse.Set s i j v
  | .inc i j => Sparse.Increment s i j

/-- The sparse matrix produced by a sequence of mutator calls on
`NewSparse`. -/
def runOps (ops : List SparseOp) : Sparse :=
  ops.foldl applyOp NewSparse

/-- The coordinate a mutator call writes to. -/
def SparseOp.touches : SparseOp → Int → Int → Prop
  | .set a b _, i, j => a = i ∧ b = j
  | .inc a b, i, j => a = i ∧ b = j

instance (op : SparseOp) (i j : Int) : Decidable (op.touches i j) := by
  cases op <;> simp [SparseOp.touches] <;> infer_instance

/-! Theorems. -/

/-- C1: `AddRow(values)` returns `RowSizeError` iff
`length(values) ≠ columns`, with the matrix unchanged on failure; on
success exactly the elements of `values` are appended to the buffer, so
`Rows()` grows by exactly one and `length(data) = Rows() * columns`
afterwards. Stated under the data model's invariant: a positive column
count dividing the buffer length. -/
theorem AddRow_spec (m : MatrixFloat64) (values : List Val)
    (hc : 0 < m.columns) (hdvd : m.columns ∣ m.data.length) :
    (values.length ≠ m.columns → AddRow m values = (m, some .rowSize)) ∧
    (values.length = m.columns →
      AddRow m values = ({ data := m.data ++ values, columns := m.columns }, none) ∧
      Rows (AddRow m values).1 = some (m.data.length / m.columns + 1) ∧
      (AddRow m values).1.data.length = (m.data.length / m.columns + 1) * m.columns) := by
  constructor
  · intro h
    simp [AddRow, h]
  · intro h
    have hne : m.columns ≠ 0 := Nat.pos_iff_ne_zero.mp hc
    have hA : AddRow m values =
        ({ data := m.data ++ values, columns := m.columns }, none) := by
      simp [AddRow, h]
    refine ⟨hA, ?_, ?_⟩
    · rw [hA]
      simp only [Rows, if_neg hne]
      rw [List.length_append, h, Nat.add_div_right _ hc]
    · rw [hA]
      simp only [List.length_append, h]
      rw [Nat.add_mul, one_mul, Nat.div_mul_cancel hdvd]

/-- Witness for C1 on the concrete matrix `[[1,2,3]]`. -/
theorem AddRow_spec_witness :
    AddRow ⟨[1, 2, 3], 3⟩ [4, 5, 6] = (⟨[1, 2, 3, 4, 5, 6], 3⟩, none) :=
  ((AddRow_spec ⟨[1, 2, 3], 3⟩ [4, 5, 6] (by decide) (by decide)).2 (by decide)).1

/-- C2 (code bug): `GetColumnData` passes its bounds check but the scan
loop's condition `i+columns < len(data)-1` stops before the final
complete row (the final two when `columns = 1`): on the two-row
one-column matrix `[[1],[2]]` it returns `[]` instead of the claimed
`[1, 2]`, and on the two-row three-column matrix `[[1,2,3],[4,5,6]]`
with column 1 it returns `[2]` instead of the claimed `[2, 5]`. -/
theorem GetColumnData_drops_last_row :
    GetColumnData ⟨[1, 2], 1⟩ 0 = some (.ok []) ∧
    GetColumnData ⟨[1, 2, 3, 4, 5, 6], 3⟩ 1 = some (.ok [2]) :=
  ⟨rfl, rfl⟩

/-- C3 (code bug): `AppendColumn 0` on the repository's own test matrix
(one row `[1,2,3]`, three columns) panics instead of terminating with
the claimed buffer `[1,2,3,0]`: the iterator's off-by-one grants an
extra iteration at cursor `rows`, whose copy loop reads `m.data[3]` out
of range (and the copy loop also writes old values to unshifted
indices, overwriting each inserted default). The run is therefore
`none`; the second conjunct shows it panics even on an empty matrix. -/
theorem AppendColumn_panics :
    AppendColumn ⟨[1, 2, 3], 3⟩ 0 = none ∧
    AppendColumn ⟨[], 3⟩ 0 = none :=
  ⟨rfl, rfl⟩

/-- C4 (code bug): on the matrix `[[9,9],[1,1],[0,0]]`, the row of
greatest sum is `[9,9]` and the row of least sum is `[0,0]`, yet
`MaxSum` and `MinSum` both return `[1,1]`: their threshold locals are
initialised but never reassigned inside the loop, so the last row whose
sum beats the fixed constant wins, and the scan loop also skips the
final row. -/
theorem MaxSum_MinSum_wrong_row :
    MaxSum ⟨[9, 9, 1, 1, 0, 0], 2⟩ = some [1, 1] ∧
    MinSum ⟨[9, 9, 1, 1, 0, 0], 2⟩ = some [1, 1] := by
  constructor
  · norm_num [MaxSum, maxSumLoop, smallestNonzeroFloat64]
  · norm_num [MinSum, minSumLoop, maxFloat64]

/-- C9: a matrix with column count `0` hits the division-by-zero branch
of `Rows` (and `Dimensions`) on every buffer, while with a positive
column count `Rows` is total and equals `length(data) / columns`. -/
theorem Rows_division_by_zero (data : List Val) (c : Nat) :
    (Rows ⟨data, 0⟩ = none ∧ Dimensions ⟨data, 0⟩ = none) ∧
    (0 < c →
      Rows ⟨data, c⟩ = some (data.length / c) ∧
      Dimensions ⟨data, c⟩ = some (data.length / c, c)) := by
  refine ⟨⟨rfl, rfl⟩, ?_⟩
  intro hc
  have hne : c ≠ 0 := Nat.pos_iff_ne_zero.mp hc
  constructor
  · simp [Rows, hne]
  · simp [Dimensions, Rows, hne]

/-- Witness for C9 with a one-element buffer and column counts 0, 2. -/
theorem Rows_division_by_zero_witness :
    Rows ⟨[1], 0⟩ = none ∧ Rows ⟨[1], 2⟩ = some 0 :=
  ⟨(Rows_division_by_zero [1] 2).1.1, ((Rows_division_by_zero [1] 2).2 (by decide)).1⟩

/-- Helper: for a nonzero column count the bounds check accepts exactly
the closed ranges `[0, rows]` and `[0, columns]`. -/
theorem check_accepts_iff (m : MatrixFloat64) (hc : m.columns ≠ 0) (row column : Int) :
    checkRowAndColumnBounds m row column = some none ↔
      0 ≤ row ∧ row ≤ ((m.data.length / m.columns : Nat) : Int) ∧
      0 ≤ column ∧ column ≤ (m.columns : Int) := by
  simp only [checkRowAndColumnBounds, if_neg hc]
  split_ifs with h1 h2
  · simp only [Option.some.injEq, reduceCtorEq, false_iff]
    omega
  · simp only [Option.some.injEq, reduceCtorEq, false_iff]
    omega
  · simp only [true_iff]
    omega

/-- C5: for a matrix with `r = len/columns` complete rows and a
positive column count, the shared bounds check accepts the
one-past-the-end indices `row = r` and `column = columns`, rejecting
only `row < 0`, `row > r`, `column < 0`, `column > columns`;
consequently `GetValue r column` passes validation but indexes the
buffer at an offset `≥ len(data)`, and `GetRow r` slices past the
buffer end, so both reach the out-of-bounds `none` branch despite the
successful check. -/
theorem check_one_past_end (m : MatrixFloat64) (hc : 0 < m.columns)
    (hdvd : m.columns ∣ m.data.length) :
    (∀ row column : Int,
      checkRowAndColumnBounds m row column = some none ↔
        0 ≤ row ∧ row ≤ ((m.data.length / m.columns : Nat) : Int) ∧
        0 ≤ column ∧ column ≤ (m.columns : Int)) ∧
    (∀ column : Int, 0 ≤ column → column ≤ (m.columns : Int) →
      GetValue m ((m.data.length / m.columns : Nat) : Int) column = none) ∧
    GetRow m ((m.data.length / m.columns : Nat) : Int) = none := by
  have hne : m.columns ≠ 0 := Nat.pos_iff_ne_zero.mp hc
  have hrc : (m.data.length / m.columns) * m.columns = m.data.length :=
    Nat.div_mul_cancel hdvd
  have hcast : ((m.data.length / m.columns : Nat) : Int) * (m.columns : Int) =
      (m.data.length : Int) := by exact_mod_cast congrArg (Nat.cast (R := Int)) hrc
  refine ⟨fun row column => check_accepts_iff m hne row column, ?_, ?_⟩
  · intro column h0 hcle
    have hchk : checkRowAndColumnBounds m ((m.data.length / m.columns : Nat) : Int) column =
        some none :=
      (check_accepts_iff m hne _ column).mpr
        ⟨Int.natCast_nonneg _, le_refl _, h0, hcle⟩
    simp only [GetValue, hchk]
    have hidx : indexInt m.data
        (((m.data.length / m.columns : Nat) : Int) * (m.columns : Int) + column) = none := by
      unfold indexInt
      rw [dif_neg]
      rw [hcast]
      omega
    rw [hidx]
  · have hchk : checkRowAndColumnBounds m ((m.data.length / m.columns : Nat) : Int) 0 =
        some none :=
      (check_accepts_iff m hne _ 0).mpr
        ⟨Int.natCast_nonneg _, le_refl _, le_refl _, Int.natCast_nonneg _⟩
    simp only [GetRow, hchk]
    have hsl : sliceInt m.data (((m.data.length / m.columns : Nat) : Int) * (m.columns : Int))
        (((m.data.length / m.columns : Nat) : Int) * (m.columns : Int) + (m.columns : Int)) =
        none := by
      unfold sliceInt
      rw [if_neg]
      rw [hcast]
      omega
    rw [hsl]

/-- Witness for C5 on the matrix `[[1,2,3],[4,5,6]]` (`r = 2`). -/
theorem check_one_past_end_witness :
    checkRowAndColumnBounds ⟨[1, 2, 3, 4, 5, 6], 3⟩ 2 3 = some none ∧
    GetValue ⟨[1, 2, 3, 4, 5, 6], 3⟩ 2 1 = none ∧
    GetRow ⟨[1, 2, 3, 4, 5, 6], 3⟩ 2 = none := by
  have h := check_one_past_end ⟨[1, 2, 3, 4, 5, 6], 3⟩ (by decide) (by decide)
  exact ⟨(h.1 2 3).mpr (by decide), h.2.1 1 (by decide) (by decide), h.2.2⟩

/-- Helper: the fresh iterator's state after `j` `Next` calls has
cursor `j - 1`. -/
theorem iterateNext_fresh (m : MatrixFloat64) (hc : m.columns ≠ 0) :
    ∀ j : Nat, iterateNext (mkIterator m) j = some ⟨m, (j : Int) - 1⟩
  | 0 => by
      simp only [iterateNext, mkIterator]
      norm_num
  | j + 1 => by
      have harith : ((j : Int) - 1) + 1 = ((j + 1 : Nat) : Int) - 1 := by
        push_cast
        ring
      rw [iterateNext, iterateNext_fresh m hc j]
      simp only [Next, Rows, if_neg hc, harith]
      split_ifs <;> rfl

/-- C6: on a fresh iterator over a matrix with `r = len/columns` rows
(positive column count), the `k`-th `Next` call (`k ≥ 1`) returns
`true` precisely when `k ≤ r + 1` — so the first `r+1` calls all
succeed, the cursor reaching the one-past-the-end row and still
reporting success exactly once, and every later call returns
`false`. -/
theorem Next_first_calls (m : MatrixFloat64) (hc : 0 < m.columns)
    (k : Nat) (hk : 1 ≤ k) :
    nthNext m k = some (decide (k ≤ m.data.length / m.columns + 1)) := by
  have hne : m.columns ≠ 0 := Nat.pos_iff_ne_zero.mp hc
  unfold nthNext
  rw [iterateNext_fresh m hne (k - 1)]
  simp only [Next, Rows, if_neg hne]
  split_ifs with hgt
  · have hfalse : ¬ k ≤ m.data.length / m.columns + 1 := by omega
    simp [hfalse]
  · have htrue : k ≤ m.data.length / m.columns + 1 := by omega
    simp [htrue]

/-- Witness for C6 on the two-row matrix `[[1,2,3],[4,5,6]]`: the third
call still succeeds, the fourth fails. -/
theorem Next_first_calls_witness :
    nthNext ⟨[1, 2, 3, 4, 5, 6], 3⟩ 3 = some true ∧
    nthNext ⟨[1, 2, 3, 4, 5, 6], 3⟩ 4 = some false := by
  have h3 := Next_first_calls ⟨[1, 2, 3, 4, 5, 6], 3⟩ (by decide) 3 (by decide)
  have h4 := Next_first_calls ⟨[1, 2, 3, 4, 5, 6], 3⟩ (by decide) 4 (by decide)
  exact ⟨by simpa using h3, by simpa using h4⟩

/-- Helper: `Increment` adds exactly 1 at its own coordinate. -/
theorem Get_Increment_self (s : Sparse) (i j : Int) :
    Sparse.Get (Sparse.Increment s i j) i j = Sparse.Get s i j + 1 := by
  unfold Sparse.Get Sparse.Increment
  cases h : s.Data i <;> simp [h]

/-- Helper: a mutator call aimed elsewhere does not change the value
read at `(i, j)`. -/
theorem Get_applyOp_untouched (s : Sparse) (op : SparseOp) (i j : Int)
    (h : ¬ op.touches i j) :
    Sparse.Get (applyOp s op) i j = Sparse.Get s i j := by
  cases op with
  | set a b v =>
      by_cases hai : i = a
      · have hbj : ¬ (j = b) := fun hbj => h ⟨hai.symm, hbj.symm⟩
        subst hai
        unfold applyOp Sparse.Set Sparse.Get
        cases hD : s.Data i <;> simp [hD, hbj]
      · unfold applyOp Sparse.Set Sparse.Get
        simp [hai]
  | inc a b =>
      by_cases hai : i = a
      · have hbj : ¬ (j = b) := fun hbj => h ⟨hai.symm, hbj.symm⟩
        subst hai
        unfold applyOp Sparse.Increment Sparse.Get
        cases hD : s.Data i <;> simp [hD, hbj]
      · unfold applyOp Sparse.Increment Sparse.Get
        simp [hai]

/-- Helper: a run of mutator calls all aimed elsewhere preserves the
value read at `(i, j)`. -/
theorem Get_foldl_untouched (i j : Int) :
    ∀ (ops : List SparseOp) (s : Sparse), (∀ op ∈ ops, ¬ op.touches i j) →
      Sparse.Get (ops.foldl applyOp s) i j = Sparse.Get s i j
  | [], _, _ => rfl
  | op :: rest, s, h => by
      rw [List.foldl_cons,
        Get_foldl_untouched i j rest (applyOp s op)
          (fun o ho => h o (List.mem_cons_of_mem _ ho)),
        Get_applyOp_untouched s op i j (h op (List.mem_cons_self _ _))]

/-- C7: after any sequence of `Set`/`Increment` calls on a fresh sparse
matrix, `Get` at a coordinate never passed to `Set` or `Increment`
returns `0` (the lookup is total — there is no error path), and one
`Increment` on such a coordinate makes `Get` return exactly `1`, the
row mapping being created lazily. -/
theorem Sparse_never_set (ops : List SparseOp) (i j : Int)
    (h : ∀ op ∈ ops, ¬ op.touches i j) :
    Sparse.Get (runOps ops) i j = 0 ∧
    Sparse.Get (Sparse.Increment (runOps ops) i j) i j = 1 := by
  have h0 : Sparse.Get (runOps ops) i j = 0 := by
    rw [runOps, Get_foldl_untouched i j ops NewSparse h]
    rfl
  refine ⟨h0, ?_⟩
  rw [Get_Increment_self, h0]
  norm_num

/-- Witness for C7: coordinate `(0,0)` untouched by
`Set(1,1,5); Increment(2,2)`. -/
theorem Sparse_never_set_witness :
    Sparse.Get (runOps [.set 1 1 5, .inc 2 2]) 0 0 = 0 ∧
    Sparse.Get (Sparse.Increment (runOps [.set 1 1 5, .inc 2 2]) 0 0) 0 0 = 1 :=
  Sparse_never_set [.set 1 1 5, .inc 2 2] 0 0 (by decide)

/-- C8: `Sample` with a negative amount returns a fresh empty matrix
with the receiver's column count, leaving the receiver unchanged; with
`amount ≥ len(data)` — the total element count, not the row count — it
returns the receiver itself (`.original`, aliased, not a copy),
unchanged; and `.original` is returned in no other case. -/
theorem Sample_spec (m : MatrixFloat64) (amount : Int) (draws : List Nat) :
    (amount < 0 → Sample m amount draws = some (.fresh ⟨[], m.columns⟩, m)) ∧
    (amount ≥ (m.data.length : Int) → Sample m amount draws = some (.original, m)) ∧
    (∀ res state, Sample m amount draws = some (res, state) →
      state = m ∧ (res = SampleResult.original ↔ amount ≥ (m.data.length : Int))) := by
  refine ⟨?_, ?_, ?_⟩
  · intro h
    unfold Sample
    rw [if_pos h]
    rfl
  · intro h
    have hn : ¬ amount < 0 := by omega
    unfold Sample
    rw [if_neg hn, if_pos h]
  · intro res state hres
    unfold Sample at hres
    split_ifs at hres with h1 h2
    · have hres' := hres
      simp only [Option.some.injEq, Prod.mk.injEq] at hres'
      refine ⟨hres'.2.symm, ?_⟩
      rw [← hres'.1]
      constructor
      · intro habs
        exact absurd habs (by simp)
      · intro habs
        omega
    · simp only [Option.some.injEq, Prod.mk.injEq] at hres
      exact ⟨hres.2.symm, by rw [← hres.1]; simp [h2]⟩
    · dsimp only at hres
      split at hres
      · exact absurd hres (by simp)
      · simp only [Option.some.injEq, Prod.mk.injEq] at hres
        refine ⟨hres.2.symm, ?_⟩
        rw [← hres.1]
        constructor
        · intro habs
          exact absurd habs (by simp)
        · intro habs
          omega

/-- Witness for C8 on `[[1,2,3]]` with amounts `-1` and `5`. -/
theorem Sample_spec_witness :
    Sample ⟨[1, 2, 3], 3⟩ (-1) [] = some (.fresh ⟨[], 3⟩, ⟨[1, 2, 3], 3⟩) ∧
    Sample ⟨[1, 2, 3], 3⟩ 5 [] = some (.original, ⟨[1, 2, 3], 3⟩) :=
  ⟨(Sample_spec ⟨[1, 2, 3], 3⟩ (-1) []).1 (by decide),
   (Sample_spec ⟨[1, 2, 3], 3⟩ 5 []).2.1 (by decide)⟩

/-- C10: for strictly in-range indices (`0 ≤ row < Rows()`,
`0 ≤ column < columns`), `UpdateValue` succeeds with no error and
changes exactly the buffer element at `row*columns + column` to the
given value; every other element, the buffer length, the column count
and the row count are unchanged. -/
theorem UpdateValue_frame (m : MatrixFloat64) (v : Val) (row column : Int)
    (hr0 : 0 ≤ row) (hr : row < ((m.data.length / m.columns : Nat) : Int))
    (hc0 : 0 ≤ column) (hcol : column < (m.columns : Int)) :
    UpdateValue m v row column =
      some (⟨m.data.set (row * (m.columns : Int) + column).toNat v, m.columns⟩, none) ∧
    (m.data.set (row * (m.columns : Int) + column).toNat v).length = m.data.length ∧
    (m.data.set (row * (m.columns : Int) + column).toNat v)[(row * (m.columns : Int) + column).toNat]? = some v ∧
    (∀ idx : Nat, idx ≠ (row * (m.columns : Int) + column).toNat →
      (m.data.set (row * (m.columns : Int) + column).toNat v)[idx]? = m.data[idx]?) ∧
    Rows ⟨m.data.set (row * (m.columns : Int) + column).toNat v, m.columns⟩ = Rows m := by
  lift row to Nat using hr0 with k
  lift column to Nat using hc0 with l
  have hkr : k < m.data.length / m.columns := by exact_mod_cast hr
  have hlc : l < m.columns := by exact_mod_cast hcol
  have hne : m.columns ≠ 0 := by omega
  have hidxcast : ((k : Int) * (m.columns : Int) + (l : Int)) = ((k * m.columns + l : Nat) : Int) := by
    push_cast
    ring
  have hbound : k * m.columns + l < m.data.length := by
    have h1 : k + 1 ≤ m.data.length / m.columns := hkr
    have h2 : (k + 1) * m.columns ≤ (m.data.length / m.columns) * m.columns :=
      Nat.mul_le_mul_right _ h1
    have h3 : (m.data.length / m.columns) * m.columns ≤ m.data.length :=
      Nat.div_mul_le_self _ _
    rw [Nat.succ_mul] at h2
    have h4 : k * m.columns + l < k * m.columns + m.columns :=
      Nat.add_lt_add_left hlc _
    exact lt_of_lt_of_le h4 (le_trans h2 h3)
  have htoNat : ((k : Int) * (m.columns : Int) + (l : Int)).toNat = k * m.columns + l := by
    rw [hidxcast]
    exact Int.toNat_natCast _
  have hchk : checkRowAndColumnBounds m (k : Int) (l : Int) = some none :=
    (check_accepts_iff m hne _ _).mpr
      ⟨Int.natCast_nonneg _, by exact_mod_cast Nat.le_of_lt hkr,
       Int.natCast_nonneg _, by exact_mod_cast Nat.le_of_lt hlc⟩
  have hwrite : writeInt m.data ((k : Int) * (m.columns : Int) + (l : Int)) v =
      some (m.data.set (k * m.columns + l) v) := by
    unfold writeInt
    rw [if_pos ⟨by positivity, by rw [htoNat]; exact hbound⟩, htoNat]
  refine ⟨?_, ?_, ?_, ?_, ?_⟩
  · simp only [UpdateValue, hchk, hwrite, htoNat]
  · exact List.length_set ..
  · rw [htoNat]
    exact List.getElem?_set_eq_of_lt _ hbound
  · intro idx hidx
    rw [htoNat] at hidx ⊢
    exact List.getElem?_set_ne (fun hh => hidx hh.symm) ..
  · simp [Rows]

/-- Witness for C10 on `[[1,2,3],[4,5,6]]` at cell `(1,1)`. -/
theorem UpdateValue_frame_witness :
    UpdateValue ⟨[1, 2, 3, 4, 5, 6], 3⟩ 9 1 1 =
      some (⟨([1, 2, 3, 4, 5, 6] : List Val).set (((1 : Int) * 3 + 1).toNat) 9, 3⟩, none) :=
  (UpdateValue_frame ⟨[1, 2, 3, 4, 5, 6], 3⟩ 9 1 1
    (by decide) (by decide) (by decide) (by decide)).1

end MatrixSpec
